import Mathlib

/-!
Shallow embedding of `src/index.mjs` (class `EventEmitter`).

Modelling choices, all traceable to the source:

* Event keys are JavaScript property keys of the private object `#listeners`:
  text strings or symbols (`EventKey.str` / `EventKey.sym`).
* Listener entries are function values compared by reference identity, modelled
  by the inductive `Fn`.  `Fn.user n` is an arbitrary user-supplied function
  (its behaviour is supplied by an environment `Env`); `Fn.once i k f` is the
  closure produced by `#createOnceListener(k, f)` (line 64), with `i` a fresh
  identity drawn from a per-instance counter; `Fn.nonfn n` is a registered
  value that is not invocable (the source performs no validation, so such
  values can be stored; invoking one raises a TypeError, `Value.typeError`).
* The emitter instance state (`State`) holds the insertion-ordered property
  map `#listeners` (`registry`), the `#captureRejections` flag, the property
  `this[this.#captureRejectionSymbol]` (`rejectionHandler`, `none` when the
  property is absent or falsy), the set of promises on which
  `promise.catch(this.#capturePromiseError)` has been installed
  (`pendingCatches`), and the fresh-identity counter `nextId`.
* Control flow, including exceptions, is interpreted by one fuel-indexed
  function `run`; `Out.thrown s log e` is a JavaScript `throw e` propagating
  with the mutated state `s`.  Fuel only bounds recursion depth; theorems are
  stated either for executions that produce a result or with explicit fuel.
* `Log` is an observation instrument: every actual function invocation is
  recorded as `(function, argument list)`, in chronological order.  User code
  (the environment) cannot touch the log.
-/

namespace EmitterSpec

inductive EventKey where
  | str : String → EventKey
  | sym : Nat → EventKey
deriving DecidableEq, Repr

inductive Fn where
  | user : Nat → Fn
  | once : Nat → EventKey → Fn → Fn
  | nonfn : Nat → Fn
deriving DecidableEq, Repr

inductive Value where
  | undef : Value
  | nat : Nat → Value
  | keyv : EventKey → Value
  | fnv : Fn → Value
  | exn : Nat → Value
  | typeError : Value
  | promise : Nat → Value
deriving DecidableEq, Repr

/-- Result of invoking a user behaviour: a normal return or a `throw`. -/
inductive Outcome where
  | ret : Value → Outcome
  | throwE : Value → Outcome
deriving DecidableEq, Repr

structure State where
  registry : List (EventKey × List Fn)
  captureRejections : Bool
  rejectionHandler : Option Fn
  pendingCatches : List Nat
  nextId : Nat
deriving DecidableEq, Repr

abbrev Log := List (Fn × List Value)

/-- Behaviour of user-supplied functions: given the user-function id, the
argument list and the current emitter state, produce the mutated state and an
outcome.  Arbitrary transformers subsume anything user code can do through the
public interface. -/
abbrev Env := Nat → List Value → State → State × Outcome

/-- Reserved event keys (source lines 100, 175, 247). -/
def errKey : EventKey := .str "error"

def newListenerKey : EventKey := .str "newListener"

def removeListenerKey : EventKey := .str "removeListener"

def emptyState : State := ⟨[], false, none, [], 0⟩

/-! ### Registry primitives (the `#listeners` plain object) -/

def lookupKey : List (EventKey × List Fn) → EventKey → Option (List Fn)
  | [], _ => none
  | (k', l) :: rest, k => if k' = k then some l else lookupKey rest k

def setKey : List (EventKey × List Fn) → EventKey → List Fn → List (EventKey × List Fn)
  | [], _, _ => []
  | (k', l) :: rest, k, nl => if k' = k then (k', nl) :: rest else (k', l) :: setKey rest k nl

def removeKey : List (EventKey × List Fn) → EventKey → List (EventKey × List Fn)
  | [], _ => []
  | (k', l) :: rest, k => if k' = k then rest else (k', l) :: removeKey rest k

/-- `#get(eventName)` (line 41): the stored array or `undefined`. -/
def getL (s : State) (k : EventKey) : Option (List Fn) :=
  lookupKey s.registry k

/-- `listeners(eventName)` (line 133): a copy of the stored array, or `[]`. -/
def listeners (s : State) (k : EventKey) : List Fn :=
  (getL s k).getD []

/-- `listenerCount(eventName)` (line 143). -/
def listenerCount (s : State) (k : EventKey) : Nat :=
  match getL s k with
  | some l => l.length
  | none => 0

/-- The `#getOrCreate(eventName).push(listener)` step of `on` (lines 50–56, 176). -/
def pushListener (s : State) (k : EventKey) (f : Fn) : State :=
  match lookupKey s.registry k with
  | some l => { s with registry := setKey s.registry k (l ++ [f]) }
  | none => { s with registry := s.registry ++ [(k, [f])] }

/-- The `#getOrCreate(eventName).unshift(listener)` step of `prependListener`
(line 216).  A fresh key is still appended at the end of the property map. -/
def unshiftListener (s : State) (k : EventKey) (f : Fn) : State :=
  match lookupKey s.registry k with
  | some l => { s with registry := setKey s.registry k (f :: l) }
  | none => { s with registry := s.registry ++ [(k, [f])] }

/-- The `if (listeners.length == 0) delete this.#listeners[eventName]` step of
`off` (line 249), reading the sequence currently stored for the key. -/
def cleanupKey (s : State) (k : EventKey) : State :=
  match lookupKey s.registry k with
  | some [] => { s with registry := removeKey s.registry k }
  | _ => s

/-- `Array.prototype.indexOf` on the stored listener array (line 244): index
of the first entry strictly equal to the argument, if any. -/
def jsIndexOf (l : List Fn) (f : Fn) : Option Nat :=
  match l with
  | [] => none
  | a :: rest => if a = f then some 0 else (jsIndexOf rest f).map (· + 1)

/-- Installing `promise.catch(this.#capturePromiseError)` (line 87). -/
def addCatch (s : State) (p : Nat) : State :=
  { s with pendingCatches := s.pendingCatches ++ [p] }

/-! ### `eventNames()` = `Object.keys(this.#listeners)` (line 124).

`Object.keys` lists array-index keys first in ascending numeric order, then
the remaining string keys in insertion order, and omits symbol keys. -/

def isStrKey : EventKey → Bool
  | .str _ => true
  | .sym _ => false

def digitsVal (l : List Char) : Nat :=
  l.foldl (fun a c => 10 * a + (c.toNat - 48)) 0

def isIndexChars : List Char → Bool
  | [] => false
  | c :: rest => c.isDigit && (rest.isEmpty || c != '0') && rest.all (·.isDigit)

def keyIdxVal : EventKey → Nat
  | .str t => digitsVal t.data
  | .sym _ => 0

def isArrayIndexKey : EventKey → Bool
  | .str t => isIndexChars t.data && decide (digitsVal t.data < 4294967295)
  | .sym _ => false

def insSorted (a : EventKey) : List EventKey → List EventKey
  | [] => [a]
  | b :: r => if keyIdxVal a ≤ keyIdxVal b then a :: b :: r else b :: insSorted a r

def sortIdx : List EventKey → List EventKey
  | [] => []
  | a :: r => insSorted a (sortIdx r)

def eventNames (s : State) : List EventKey :=
  let strs := (s.registry.map Prod.fst).filter isStrKey
  sortIdx (strs.filter isArrayIndexKey) ++ strs.filter (fun k => !isArrayIndexKey k)

/-! ### The interpreter -/

/-- Result value of an operation: `unit` for mutators interpreted for their
effect, `bool` for `emit`, `val` for the value returned by a listener. -/
inductive RVal where
  | unit : RVal
  | bool : Bool → RVal
  | val : Value → RVal
deriving DecidableEq, Repr

inductive Out where
  | ok : State → Log → RVal → Out
  | thrown : State → Log → Value → Out
  | fuelOut : Out
deriving DecidableEq, Repr

/-- Pending operation of the interpreter.  Each constructor corresponds to a
method (or an inner loop) of the source class. -/
inductive Call where
  | invoke : Fn → List Value → Call
  | emitList : List Value → List Fn → Call
  | emitEvent : EventKey → List Value → Call
  | emitError : Value → Call
  | emit : EventKey → List Value → Call
  | onAdd : EventKey → Fn → Call
  | prependAdd : EventKey → Fn → Call
  | onceAdd : EventKey → Fn → Call
  | prependOnceAdd : EventKey → Fn → Call
  | off : EventKey → Fn → Call
  | removeAll : Option EventKey → Call
  | drainKeys : List EventKey → Call
  | drainFns : EventKey → List Fn → Call
  | promiseError : Value → Call
deriving DecidableEq, Repr

/-- Fuel-indexed interpreter for the methods of `EventEmitter`.

* `.invoke`: calling a stored entry.  A user function is a behaviour from the
  environment; the once-wrapper (lines 65–68) first calls
  `this.off(eventName, onceListener)`, then `listener(...args)`, and returns
  `undefined` (the arrow-function body is a block with no `return`); calling a
  non-invocable value throws a TypeError.
* `.emitList`: the loop of `#emitEvent` (lines 84–89) over the snapshot,
  installing the rejection capture when `#captureRejections` is set and the
  returned value is a promise.
* `.emitEvent` (lines 82–91): snapshots `this.listeners(eventName)`, walks it,
  and returns `listeners.length > 0` computed on the snapshot.
* `.emitError` (lines 99–103), `.emit` (lines 158–164), `.promiseError`
  = `#emitPromiseError` (lines 111–118, with `if (rejectionListener)` modelled
  by `Option`).
* `.onAdd` (lines 174–178): `emit("newListener", …)` first, then push; an
  exception from the dispatch propagates and skips the insertion.
* `.onceAdd` (lines 201–204): build the wrapper with a fresh identity, then
  `on`.  `.prependAdd`/`.prependOnceAdd` (lines 214–218, 228–231) likewise.
* `.off` (lines 241–252): `indexOf`/`splice`, then
  `emit("removeListener", eventName, listener)` only when an entry was
  removed, then the empty-sequence cleanup; an exception from the dispatch
  propagates before the cleanup.
* `.removeAll` (lines 274–283): key list fixed up front (the argument, or
  `eventNames()`), per-key listener snapshot taken when the key is reached
  (`.drainKeys`/`.drainFns` are the two `for` loops). -/
def run : Nat → Env → State → Log → Call → Out
  | 0, _, _, _, _ => .fuelOut
  | n + 1, env, s, log, c =>
    match c with
    | .invoke f args =>
      match f with
      | .user u =>
        match env u args s with
        | (s₁, .ret v) => .ok s₁ (log ++ [(f, args)]) (.val v)
        | (s₁, .throwE e) => .thrown s₁ (log ++ [(f, args)]) e
      | .once _i k orig =>
        match run n env s (log ++ [(f, args)]) (.off k f) with
        | .ok s₁ log₁ _ =>
          match run n env s₁ log₁ (.invoke orig args) with
          | .ok s₂ log₂ _ => .ok s₂ log₂ (.val .undef)
          | r => r
        | r => r
      | .nonfn _ => .thrown s log .typeError
    | .emitList args fns =>
      match fns with
      | [] => .ok s log .unit
      | f :: rest =>
        match run n env s log (.invoke f args) with
        | .ok s₁ log₁ r =>
          let s₂ := match r with
            | .val (.promise p) => if s₁.captureRejections then addCatch s₁ p else s₁
            | _ => s₁
          run n env s₂ log₁ (.emitList args rest)
        | r => r
    | .emitEvent k args =>
      match run n env s log (.emitList args (listeners s k)) with
      | .ok s₁ log₁ _ => .ok s₁ log₁ (.bool (decide ((listeners s k).length > 0)))
      | r => r
    | .emitError e =>
      match run n env s log (.emitEvent errKey [e]) with
      | .ok s₁ log₁ (.bool true) => .ok s₁ log₁ (.bool true)
      | .ok s₁ log₁ _ => .thrown s₁ log₁ e
      | r => r
    | .emit k args =>
      match run n env s log (.emitEvent k args) with
      | .thrown s₁ log₁ e => run n env s₁ log₁ (.emitError e)
      | r => r
    | .onAdd k f =>
      match run n env s log (.emit newListenerKey [.keyv k, .fnv f]) with
      | .ok s₁ log₁ _ => .ok (pushListener s₁ k f) log₁ .unit
      | r => r
    | .prependAdd k f =>
      match run n env s log (.emit newListenerKey [.keyv k, .fnv f]) with
      | .ok s₁ log₁ _ => .ok (unshiftListener s₁ k f) log₁ .unit
      | r => r
    | .onceAdd k f =>
      run n env { s with nextId := s.nextId + 1 } log (.onAdd k (.once s.nextId k f))
    | .prependOnceAdd k f =>
      run n env { s with nextId := s.nextId + 1 } log (.prependAdd k (.once s.nextId k f))
    | .off k f =>
      match getL s k with
      | none => .ok s log .unit
      | some lst =>
        match jsIndexOf lst f with
        | some i =>
          let s₁ := { s with registry := setKey s.registry k (lst.eraseIdx i) }
          match run n env s₁ log (.emit removeListenerKey [.keyv k, .fnv f]) with
          | .ok s₂ log₂ _ => .ok (cleanupKey s₂ k) log₂ .unit
          | r => r
        | none => .ok (cleanupKey s k) log .unit
    | .removeAll ko =>
      let ks := match ko with
        | some k => [k]
        | none => eventNames s
      run n env s log (.drainKeys ks)
    | .drainKeys ks =>
      match ks with
      | [] => .ok s log .unit
      | k :: rest =>
        match run n env s log (.drainFns k (listeners s k)) with
        | .ok s₁ log₁ _ => run n env s₁ log₁ (.drainKeys rest)
        | r => r
    | .drainFns k fns =>
      match fns with
      | [] => .ok s log .unit
      | f :: rest =>
        match run n env s log (.off k f) with
        | .ok s₁ log₁ _ => run n env s₁ log₁ (.drainFns k rest)
        | r => r
    | .promiseError e =>
      match s.rejectionHandler with
      | some f =>
        match run n env s log (.invoke f [e]) with
        | .ok s₁ log₁ _ => .ok s₁ log₁ .unit
        | r => r
      | none =>
        match run n env s log (.emitError e) with
        | .ok s₁ log₁ _ => .ok s₁ log₁ .unit
        | r => r

/-! ### Auxiliary definitions and concrete instances used in the theorems -/

/-- A user-supplied (non-wrapper, invocable) function value. -/
def Fn.isUser : Fn → Bool
  | .user _ => true
  | _ => false

/-- Concrete environment whose behaviours leave the state unchanged and return
`undefined`. -/
def env0 : Env := fun _ _ s => (s, .ret .undef)

def kx : EventKey := .str "x"

/-- Environment in which user function `0` removes user function `1` from the
`"x"` sequence (and returns `undefined`); all other behaviours are inert. -/
def env1 : Env := fun u _ s =>
  if u = 0 then ({ s with registry := [(kx, [.user 0])] }, .ret .undef) else (s, .ret .undef)

def s_two : State := ⟨[(kx, [.user 0, .user 1])], false, none, [], 0⟩

/-- Environment in which user function `0` throws `Value.exn 5`; all other
behaviours are inert. -/
def env2 : Env := fun u _ s =>
  if u = 0 then (s, .throwE (.exn 5)) else (s, .ret .undef)

def kyE : EventKey := .str "y"

def s_err : State := ⟨[(kyE, [.user 0]), (errKey, [.user 1])], false, none, [], 0⟩

def s_noerr : State := ⟨[(kyE, [.user 0])], false, none, [], 0⟩

/-- Environment in which user function `2` returns the promise `7` and user
function `3` throws `Value.exn 9`; all other behaviours are inert. -/
def env3 : Env := fun u _ s =>
  if u = 2 then (s, .ret (.promise 7))
  else if u = 3 then (s, .throwE (.exn 9))
  else (s, .ret .undef)

def sCap : State := ⟨[], true, none, [], 0⟩

def sRH : State := ⟨[], false, some (.user 0), [], 0⟩

def sRH3 : State := ⟨[], false, some (.user 3), [], 0⟩

def sErrOnly : State := ⟨[(errKey, [.user 1])], false, none, [], 0⟩

/-- Environment in which user function `0` returns `Value.nat 7`; all other
behaviours are inert. -/
def env7 : Env := fun u _ s =>
  if u = 0 then (s, .ret (.nat 7)) else (s, .ret .undef)

/-- The state produced by `once("x", f)` on a fresh emitter: the stored entry
is the wrapper, and the identity counter has advanced. -/
def sOnce : State := ⟨[(kx, [.once 0 kx (.user 0)])], false, none, [], 1⟩

def sDone : State := ⟨[], false, none, [], 1⟩

/-- Invocation trace of `emit("x", 1)` on `sOnce`: the wrapper runs, then the
original callback with the same argument. -/
def logOnce : Log := [(.once 0 kx (.user 0), [.nat 1]), (.user 0, [.nat 1])]

def ka : EventKey := .str "a"

/-- The `removeListener` handler used in the bulk-removal scenarios. -/
def uh : Fn := .user 9

/-- Scenario family for `removeAllListeners()`: key `"a"` holding the listener
list `l` (entry dropped when `l` is empty, as `off` leaves it), followed by a
`removeListener` handler `user 9`.  Here `"a"` precedes `removeListener` in
insertion order, so `eventNames()` drains it first and the handler is still
registered while `"a"` is drained. -/
def mkA : List Fn → State
  | [] => ⟨[(removeListenerKey, [uh])], false, none, [], 0⟩
  | l => ⟨[(ka, l), (removeListenerKey, [uh])], false, none, [], 0⟩

/-- State in which the `removeListener` key was registered before `"a"`, so
`eventNames()` lists it first. -/
def sRL : State :=
  ⟨[(removeListenerKey, [.user 9]), (ka, [.user 0])], false, none, [], 0⟩

/-- Registry invariant of the `#listeners` object: keys are unique properties
and a stored sequence is never empty (`off` deletes a key that drains). -/
def RegInv (s : State) : Prop :=
  (∀ p ∈ s.registry, p.2 ≠ ([] : List Fn)) ∧ (s.registry.map Prod.fst).Nodup

/-- Modelled from the spec: the max-listener warning machinery.  The shipped
type declarations document `maxListeners`, `defaultMaxListeners`,
`setMaxListeners`/`getMaxListeners` and a warning on limit excess, but the
implementing code is not among the provided sources.  Following spec §3/§4.4:
per-key listener counts, a finite (`some`) or unlimited (`none`) threshold, a
warned-keys set, and an operator-facing warning log (count of diagnostic
warnings emitted per key — distinct from the `error` path). -/
structure WarnState where
  cnt : EventKey → Nat
  maxL : Option Nat
  warned : EventKey → Bool
  warnings : EventKey → Nat

/-- Modelled from the spec: "after any insertion, if threshold is finite and
nonzero and the resulting count for that key exceeds it and a warning for that
key has not already fired, emit exactly one diagnostic warning … and mark the
key as warned" (spec §4.4). -/
def warnInsert (s : WarnState) (k : EventKey) : WarnState :=
  let c := s.cnt k + 1
  let fire : Bool :=
    match s.maxL with
    | some mx => decide (mx ≠ 0) && decide (c > mx) && !(s.warned k)
    | none => false
  { cnt := fun kk => if kk = k then c else s.cnt kk
    maxL := s.maxL
    warned := fun kk => if kk = k ∧ fire = true then true else s.warned kk
    warnings := fun kk => if kk = k ∧ fire = true then s.warnings kk + 1 else s.warnings kk }

/-- A sequence of registrations, threaded through the warning bookkeeping. -/
def warnInsertMany (s : WarnState) (ks : List EventKey) : WarnState :=
  ks.foldl warnInsert s

/-- A pristine warning state with threshold `2`. -/
def s0warn : WarnState := ⟨fun _ => 0, some 2, fun _ => false, fun _ => 0⟩

/-! ### Basic lemmas -/

theorem listeners_length (s : State) (k : EventKey) :
    (listeners s k).length = listenerCount s k := by
  unfold listeners listenerCount getL
  cases lookupKey s.registry k <;> simp

theorem listeners_eq_nil {s : State} {k : EventKey} (h : listenerCount s k = 0) :
    listeners s k = [] := by
  have hlen := listeners_length s k
  rw [h] at hlen
  exact List.eq_nil_of_length_eq_zero hlen

theorem count_ne_zero {s : State} {k : EventKey} (h : listeners s k ≠ []) :
    listenerCount s k ≠ 0 := by
  rw [← listeners_length]
  simpa using h

theorem run_zero (env : Env) (s : State) (log : Log) (c : Call) :
    run 0 env s log c = .fuelOut := rfl

theorem emitList_nil (n : Nat) (env : Env) (s : State) (log : Log) (args : List Value) :
    run (n + 1) env s log (.emitList args []) = .ok s log .unit := rfl

/-- One-step unfolding of `run` on `.emit`. -/
theorem emit_step (n : Nat) (env : Env) (s : State) (log : Log) (k : EventKey)
    (args : List Value) :
    run (n + 1) env s log (.emit k args) =
      match run n env s log (.emitEvent k args) with
      | .thrown s₁ log₁ e => run n env s₁ log₁ (.emitError e)
      | r => r := rfl

/-- One-step unfolding of `run` on `.emitError`. -/
theorem emitError_step (n : Nat) (env : Env) (s : State) (log : Log) (e : Value) :
    run (n + 1) env s log (.emitError e) =
      match run n env s log (.emitEvent errKey [e]) with
      | .ok s₁ log₁ (.bool true) => .ok s₁ log₁ (.bool true)
      | .ok s₁ log₁ _ => .thrown s₁ log₁ e
      | r => r := rfl

/-- One-step unfolding of `run` on `.emitEvent`. -/
theorem emitEvent_step (n : Nat) (env : Env) (s : State) (log : Log) (k : EventKey)
    (args : List Value) :
    run (n + 1) env s log (.emitEvent k args) =
      match run n env s log (.emitList args (listeners s k)) with
      | .ok s₁ log₁ _ => .ok s₁ log₁ (.bool (decide ((listeners s k).length > 0)))
      | r => r := rfl

/-- One-step unfolding of `run` on `.emitList` with a non-empty list. -/
theorem emitList_cons_step (n : Nat) (env : Env) (s : State) (log : Log)
    (args : List Value) (f : Fn) (rest : List Fn) :
    run (n + 1) env s log (.emitList args (f :: rest)) =
      match run n env s log (.invoke f args) with
      | .ok s₁ log₁ r =>
        run n env
          (match r with
            | .val (.promise p) => if s₁.captureRejections then addCatch s₁ p else s₁
            | _ => s₁) log₁ (.emitList args rest)
      | r => r := rfl

/-- One-step unfolding of `run` on `.invoke` of a user function. -/
theorem invoke_user_step (n : Nat) (env : Env) (s : State) (log : Log) (u : Nat)
    (args : List Value) :
    run (n + 1) env s log (.invoke (.user u) args) =
      match env u args s with
      | (s₁, .ret v) => .ok s₁ (log ++ [(.user u, args)]) (.val v)
      | (s₁, .throwE e) => .thrown s₁ (log ++ [(.user u, args)]) e := rfl

/-- One-step unfolding of `run` on `.promiseError`. -/
theorem promiseError_step (n : Nat) (env : Env) (s : State) (log : Log) (e : Value) :
    run (n + 1) env s log (.promiseError e) =
      match s.rejectionHandler with
      | some f =>
        (match run n env s log (.invoke f [e]) with
          | .ok s₁ log₁ _ => .ok s₁ log₁ .unit
          | r => r)
      | none =>
        (match run n env s log (.emitError e) with
          | .ok s₁ log₁ _ => .ok s₁ log₁ .unit
          | r => r) := rfl

/-- One-step unfolding of `run` on `.invoke` of a once-wrapper. -/
theorem invoke_once_step (n : Nat) (env : Env) (s : State) (log : Log) (i : Nat)
    (k : EventKey) (f : Fn) (args : List Value) :
    run (n + 1) env s log (.invoke (.once i k f) args) =
      match run n env s (log ++ [(.once i k f, args)]) (.off k (.once i k f)) with
      | .ok s₁ log₁ _ =>
        (match run n env s₁ log₁ (.invoke f args) with
          | .ok s₂ log₂ _ => .ok s₂ log₂ (.val .undef)
          | r => r)
      | r => r := rfl

/-- One-step unfolding of `run` on `.onAdd`. -/
theorem onAdd_step (n : Nat) (env : Env) (s : State) (log : Log) (k : EventKey) (f : Fn) :
    run (n + 1) env s log (.onAdd k f) =
      match run n env s log (.emit newListenerKey [.keyv k, .fnv f]) with
      | .ok s₁ log₁ _ => .ok (pushListener s₁ k f) log₁ .unit
      | r => r := rfl

/-- One-step unfolding of `run` on `.onceAdd`. -/
theorem onceAdd_step (n : Nat) (env : Env) (s : State) (log : Log) (k : EventKey) (f : Fn) :
    run (n + 1) env s log (.onceAdd k f) =
      run n env { s with nextId := s.nextId + 1 } log (.onAdd k (.once s.nextId k f)) := rfl

/-- One-step unfolding of `run` on `.off`. -/
theorem off_step (n : Nat) (env : Env) (s : State) (log : Log) (k : EventKey) (f : Fn) :
    run (n + 1) env s log (.off k f) =
      match getL s k with
      | none => .ok s log .unit
      | some lst =>
        match jsIndexOf lst f with
        | some i =>
          (match run n env { s with registry := setKey s.registry k (lst.eraseIdx i) } log
              (.emit removeListenerKey [.keyv k, .fnv f]) with
            | .ok s₂ log₂ _ => .ok (cleanupKey s₂ k) log₂ .unit
            | r => r)
        | none => .ok (cleanupKey s k) log .unit := rfl

/-- The boolean returned by `#emitEvent` is computed from the snapshot taken at
dispatch start (source line 90). -/
theorem emitEvent_ok_val {n : Nat} {env : Env} {s : State} {log : Log} {k : EventKey}
    {args : List Value} {s' : State} {log' : Log} {r : RVal}
    (h : run n env s log (.emitEvent k args) = .ok s' log' r) :
    r = .bool (decide (0 < listenerCount s k)) := by
  match n with
  | 0 => simp [run] at h
  | n + 1 =>
    simp only [run] at h
    cases hE : run n env s log (.emitList args (listeners s k)) <;> rw [hE] at h <;> cases h
    rw [listeners_length]

/-- A dispatch with an empty snapshot cannot throw. -/
theorem emitEvent_thrown_ne_nil {n : Nat} {env : Env} {s : State} {log : Log} {k : EventKey}
    {args : List Value} {s₁ : State} {log₁ : Log} {e : Value}
    (h : run n env s log (.emitEvent k args) = .thrown s₁ log₁ e) :
    listeners s k ≠ [] := by
  intro hnil
  match n with
  | 0 => simp [run] at h
  | n + 1 =>
    simp only [run, hnil] at h
    match n with
    | 0 => simp [run] at h
    | n + 1 => simp [run] at h

/-- `#emitError` either returns `true` or throws (source lines 99–103). -/
theorem emitError_ok_val {n : Nat} {env : Env} {s : State} {log : Log} {e : Value}
    {s' : State} {log' : Log} {r : RVal}
    (h : run n env s log (.emitError e) = .ok s' log' r) :
    r = .bool true := by
  match n with
  | 0 => simp [run] at h
  | n + 1 =>
    simp only [run] at h
    cases hE : run n env s log (.emitEvent errKey [e]) <;> rw [hE] at h
    · rename_i s₁ log₁ r₁
      rcases r₁ with _ | b | v
      · cases h
      · cases b
        · cases h
        · cases h; rfl
      · cases h
    · cases h
    · cases h

/-- Invoking a user function appends exactly one entry to the log. -/
theorem invoke_user_ok {n : Nat} {env : Env} {s : State} {log : Log} {u : Nat}
    {args : List Value} {s' : State} {log' : Log} {r : RVal}
    (h : run n env s log (.invoke (.user u) args) = .ok s' log' r) :
    log' = log ++ [(.user u, args)] := by
  match n with
  | 0 => simp [run] at h
  | n + 1 =>
    simp only [run] at h
    cases hEv : env u args s with
    | mk s₁ o =>
      rw [hEv] at h
      cases o
      · cases h; rfl
      · cases h

/-- The dispatch loop of `#emitEvent` over a snapshot of user functions logs
exactly the snapshot, in order, each with the supplied arguments — whatever
the invoked behaviours do to the emitter state. -/
theorem emitList_user_log {args : List Value} {env : Env} :
    ∀ (fns : List Fn) (n : Nat) (s : State) (log : Log) (s' : State) (log' : Log) (r : RVal),
    (∀ f ∈ fns, Fn.isUser f = true) →
    run n env s log (.emitList args fns) = .ok s' log' r →
    log' = log ++ fns.map (fun f => (f, args)) := by
  intro fns
  induction fns with
  | nil =>
    intro n s log s' log' r _ h
    match n with
    | 0 => simp [run] at h
    | n + 1 => cases h; simp
  | cons f rest ih =>
    intro n s log s' log' r hu h
    match n with
    | 0 => simp [run] at h
    | n + 1 =>
      simp only [run] at h
      cases hI : run n env s log (.invoke f args) <;> rw [hI] at h
      · rename_i s₁ log₁ r₁
        obtain ⟨u, rfl⟩ : ∃ u, f = .user u := by
          cases f
          · exact ⟨_, rfl⟩
          · have := hu _ (List.mem_cons_self _ _); simp [Fn.isUser] at this
          · have := hu _ (List.mem_cons_self _ _); simp [Fn.isUser] at this
        have hlog₁ : log₁ = log ++ [(Fn.user u, args)] := invoke_user_ok hI
        subst hlog₁
        have hrest := ih n _ _ s' log' r (fun g hg => hu g (List.mem_cons_of_mem _ hg)) h
        simp [hrest]
      · cases h
      · cases h

/-! ### C1 -/

/-- C1: `emit(key, ...args)` returns `false` iff the number of listeners
registered for `key` at dispatch snapshot time is `0`, and returns `true`
whenever it returns at all otherwise; with no listeners it always returns
`false` (and cannot fail), and deferred (later) failures never change the
returned boolean, which is computed from the snapshot alone. -/
theorem emit_false_iff_no_listeners (n : Nat) (env : Env) (s : State) (log : Log)
    (k : EventKey) (args : List Value) (s' : State) (log' : Log) (b : Bool) :
    (run n env s log (.emit k args) = .ok s' log' (.bool b) →
      (b = false ↔ listenerCount s k = 0))
    ∧ (listenerCount s k = 0 →
      run (n + 3) env s log (.emit k args) = .ok s log (.bool false)) := by
  constructor
  · intro h
    match n with
    | 0 => simp [run] at h
    | n + 1 =>
      simp only [run] at h
      cases hE : run n env s log (.emitEvent k args) <;> rw [hE] at h
      · cases h
        have hb := emitEvent_ok_val hE
        cases hb
        simp [Nat.pos_iff_ne_zero]
      · have hne : listeners s k ≠ [] := emitEvent_thrown_ne_nil hE
        have hb := emitError_ok_val h
        cases hb
        simp [count_ne_zero hne]
      · cases h
  · intro h0
    have hl : listeners s k = [] := listeners_eq_nil h0
    show run ((n + 2) + 1) env s log (.emit k args) = .ok s log (.bool false)
    simp only [run, hl]
    rfl

theorem emit_false_iff_no_listeners_witness :
    (false = false ↔ listenerCount emptyState kx = 0)
    ∧ run (0 + 3) env0 emptyState [] (.emit kx []) = .ok emptyState [] (.bool false) :=
  ⟨(emit_false_iff_no_listeners 9 env0 emptyState [] kx [] emptyState [] false).1 (by decide),
   (emit_false_iff_no_listeners 0 env0 emptyState [] kx [] emptyState [] false).2 (by decide)⟩

/-! ### C2 -/

/-- C2: the set and order of listeners invoked by one `emit(k, ...args)`
dispatch is exactly the snapshot of `k`'s listener sequence taken at dispatch
start: whatever registrations or removals the invoked behaviours perform
(`env` is arbitrary, so this covers listeners that add or remove listeners),
the in-flight dispatch still invokes precisely the snapshot, in order; the
mutated final state `s'` is what later dispatches see. -/
theorem emit_snapshot_fixed_at_dispatch (n : Nat) (env : Env) (s : State) (log : Log)
    (k : EventKey) (args : List Value) (s' : State) (log' : Log) (r : RVal)
    (hu : ∀ f ∈ listeners s k, Fn.isUser f = true)
    (h : run n env s log (.emitEvent k args) = .ok s' log' r) :
    run (n + 1) env s log (.emit k args) = .ok s' log' r
    ∧ log' = log ++ (listeners s k).map (fun f => (f, args)) := by
  constructor
  · simp only [run, h]
  · match n with
    | 0 => simp [run] at h
    | n + 1 =>
      simp only [run] at h
      cases hE : run n env s log (.emitList args (listeners s k)) <;> rw [hE] at h <;> cases h
      exact emitList_user_log (listeners s k) n s log _ _ _ hu hE

theorem emit_snapshot_fixed_at_dispatch_witness :
    run (8 + 1) env1 s_two [] (.emit kx []) =
      .ok ⟨[(kx, [.user 0])], false, none, [], 0⟩ [(.user 0, []), (.user 1, [])] (.bool true)
    ∧ [(Fn.user 0, ([] : List Value)), (.user 1, [])] =
      [] ++ (listeners s_two kx).map (fun f => (f, ([] : List Value))) :=
  emit_snapshot_fixed_at_dispatch 8 env1 s_two [] kx []
    ⟨[(kx, [.user 0])], false, none, [], 0⟩ [(.user 0, []), (.user 1, [])] (.bool true)
    (by decide) (by decide)

/-! ### C3 -/

/-- C3: when a listener throws synchronously during `emit(k, ...)`, `emit`
catches and re-dispatches to the `"error"` listeners (lines 158–164, 99–103):
if no `"error"` listener is registered the failure is re-thrown to the direct
caller of `emit` unchanged (never dropped); if `"error"` listeners exist, each
receives the thrown value as its sole argument exactly once (the log gains
exactly one entry per `"error"` listener) and `emit` returns normally, so the
process does not crash. -/
theorem sync_throw_routed_to_error_listeners (n : Nat) (env : Env) (s : State) (log : Log)
    (k : EventKey) (args : List Value) (s₁ : State) (log₁ : Log) (e : Value)
    (s₂ : State) (log₂ : Log)
    (hthrow : run (n + 3) env s log (.emitEvent k args) = .thrown s₁ log₁ e) :
    (listeners s₁ errKey = [] →
      run (n + 4) env s log (.emit k args) = .thrown s₁ log₁ e)
    ∧ ((∀ f ∈ listeners s₁ errKey, Fn.isUser f = true) → listeners s₁ errKey ≠ [] →
      run (n + 1) env s₁ log₁ (.emitList [e] (listeners s₁ errKey)) = .ok s₂ log₂ .unit →
      run (n + 4) env s log (.emit k args) = .ok s₂ log₂ (.bool true)
        ∧ log₂ = log₁ ++ (listeners s₁ errKey).map (fun f => (f, [e]))) := by
  have h1 : run ((n + 3) + 1) env s log (.emit k args) =
      run (n + 3) env s₁ log₁ (.emitError e) := by
    rw [emit_step, hthrow]
  constructor
  · intro hnil
    show run ((n + 3) + 1) env s log (.emit k args) = .thrown s₁ log₁ e
    rw [h1]
    show run ((n + 2) + 1) env s₁ log₁ (.emitError e) = .thrown s₁ log₁ e
    rw [emitError_step]
    show (match run ((n + 1) + 1) env s₁ log₁ (.emitEvent errKey [e]) with
      | .ok s₃ log₃ (.bool true) => Out.ok s₃ log₃ (.bool true)
      | .ok s₃ log₃ _ => .thrown s₃ log₃ e
      | r => r) = .thrown s₁ log₁ e
    rw [emitEvent_step, hnil, emitList_nil]
    rfl
  · intro hu hne hlist
    have hd : decide ((listeners s₁ errKey).length > 0) = true :=
      decide_eq_true (List.length_pos.mpr hne)
    constructor
    · show run ((n + 3) + 1) env s log (.emit k args) = .ok s₂ log₂ (.bool true)
      rw [h1]
      show run ((n + 2) + 1) env s₁ log₁ (.emitError e) = .ok s₂ log₂ (.bool true)
      rw [emitError_step]
      show (match run ((n + 1) + 1) env s₁ log₁ (.emitEvent errKey [e]) with
        | .ok s₃ log₃ (.bool true) => Out.ok s₃ log₃ (.bool true)
        | .ok s₃ log₃ _ => .thrown s₃ log₃ e
        | r => r) = .ok s₂ log₂ (.bool true)
      rw [emitEvent_step, hlist, hd]
    · exact emitList_user_log (listeners s₁ errKey) (n + 1) s₁ log₁ s₂ log₂ .unit hu hlist

theorem sync_throw_routed_to_error_listeners_witness :
    (run (1 + 4) env2 s_err [] (.emit kyE []) =
        .ok s_err [(.user 0, []), (.user 1, [.exn 5])] (.bool true)
      ∧ [(Fn.user 0, ([] : List Value)), (.user 1, [.exn 5])] =
        [(Fn.user 0, ([] : List Value))] ++
          (listeners s_err errKey).map (fun f => (f, [Value.exn 5])))
    ∧ run (1 + 4) env2 s_noerr [] (.emit kyE []) = .thrown s_noerr [(.user 0, [])] (.exn 5) :=
  ⟨(sync_throw_routed_to_error_listeners 1 env2 s_err [] kyE [] s_err [(.user 0, [])]
      (.exn 5) s_err [(.user 0, []), (.user 1, [.exn 5])] (by decide)).2
      (by decide) (by decide) (by decide),
   (sync_throw_routed_to_error_listeners 1 env2 s_noerr [] kyE [] s_noerr [(.user 0, [])]
      (.exn 5) s_noerr [] (by decide)).1 (by decide)⟩

/-! ### C4 -/

/-- `#emitError` with no `"error"` listeners re-throws the failure. -/
theorem emitError_nil (n : Nat) (env : Env) (s : State) (log : Log) (e : Value)
    (hnil : listeners s errKey = []) :
    run (n + 3) env s log (.emitError e) = .thrown s log e := by
  show run ((n + 2) + 1) env s log (.emitError e) = .thrown s log e
  rw [emitError_step]
  show (match run ((n + 1) + 1) env s log (.emitEvent errKey [e]) with
    | .ok s₁ log₁ (.bool true) => Out.ok s₁ log₁ (.bool true)
    | .ok s₁ log₁ _ => .thrown s₁ log₁ e
    | r => r) = .thrown s log e
  rw [emitEvent_step, hnil, emitList_nil]
  rfl

/-- `#emitError` with `"error"` listeners whose dispatch completes returns
`true`. -/
theorem emitError_with (n : Nat) (env : Env) (s : State) (log : Log) (e : Value)
    (s₃ : State) (log₃ : Log)
    (hne : listeners s errKey ≠ [])
    (hlist : run (n + 1) env s log (.emitList [e] (listeners s errKey)) = .ok s₃ log₃ .unit) :
    run (n + 3) env s log (.emitError e) = .ok s₃ log₃ (.bool true) := by
  have hd : decide ((listeners s errKey).length > 0) = true :=
    decide_eq_true (List.length_pos.mpr hne)
  show run ((n + 2) + 1) env s log (.emitError e) = .ok s₃ log₃ (.bool true)
  rw [emitError_step]
  show (match run ((n + 1) + 1) env s log (.emitEvent errKey [e]) with
    | .ok s₁ log₁ (.bool true) => Out.ok s₁ log₁ (.bool true)
    | .ok s₁ log₁ _ => .thrown s₁ log₁ e
    | r => r) = .ok s₃ log₃ (.bool true)
  rw [emitEvent_step, hlist, hd]

/-- C4: routing of a deferred failure (`#emitPromiseError`, lines 111–118,
reached through the capture handler installed at line 87).  The capture
handler is installed on a returned promise iff `captureRejections` is set;
when the failure later arrives: if the instance has a callback under the
capture-rejection symbol it is invoked with the failure value and nothing
more (its own failures simply propagate, unrouted — terminal); otherwise an
`"error"` event is dispatched with the failure value as sole argument;
otherwise the failure is re-thrown (surfacing as an unhandled failure). -/
theorem promise_failure_routing_order :
    (∀ (n : Nat) (env : Env) (s : State) (log : Log) (args : List Value) (f : Fn)
        (p : Nat) (s₁ : State) (log₁ : Log),
      run n env s log (.invoke f args) = .ok s₁ log₁ (.val (.promise p)) →
      run (n + 1) env s log (.emitList args [f]) =
        .ok (if s₁.captureRejections then addCatch s₁ p else s₁) log₁ .unit)
    ∧ (∀ (n : Nat) (env : Env) (s : State) (log : Log) (e : Value) (uf : Nat)
        (s₂ : State) (v : Value),
      s.rejectionHandler = some (.user uf) → env uf [e] s = (s₂, .ret v) →
      run (n + 2) env s log (.promiseError e) = .ok s₂ (log ++ [(.user uf, [e])]) .unit)
    ∧ (∀ (n : Nat) (env : Env) (s : State) (log : Log) (e : Value) (uf : Nat)
        (s₂ : State) (e' : Value),
      s.rejectionHandler = some (.user uf) → env uf [e] s = (s₂, .throwE e') →
      run (n + 2) env s log (.promiseError e) = .thrown s₂ (log ++ [(.user uf, [e])]) e')
    ∧ (∀ (n : Nat) (env : Env) (s : State) (log : Log) (e : Value),
      s.rejectionHandler = none → listeners s errKey = [] →
      run (n + 4) env s log (.promiseError e) = .thrown s log e)
    ∧ (∀ (n : Nat) (env : Env) (s : State) (log : Log) (e : Value) (s₃ : State) (log₃ : Log),
      s.rejectionHandler = none →
      (∀ f ∈ listeners s errKey, Fn.isUser f = true) → listeners s errKey ≠ [] →
      run (n + 1) env s log (.emitList [e] (listeners s errKey)) = .ok s₃ log₃ .unit →
      run (n + 4) env s log (.promiseError e) = .ok s₃ log₃ .unit
        ∧ log₃ = log ++ (listeners s errKey).map (fun f => (f, [e]))) := by
  refine ⟨?_, ?_, ?_, ?_, ?_⟩
  · intro n env s log args f p s₁ log₁ h
    match n with
    | 0 => simp [run] at h
    | m + 1 =>
      show run ((m + 1) + 1) env s log (.emitList args [f]) = _
      rw [emitList_cons_step, h]
      exact emitList_nil m env _ log₁ args
  · intro n env s log e uf s₂ v hrh hEv
    show run ((n + 1) + 1) env s log (.promiseError e) = _
    rw [promiseError_step, hrh]
    show (match run ((n) + 1) env s log (.invoke (.user uf) [e]) with
      | .ok s₁ log₁ _ => Out.ok s₁ log₁ .unit
      | r => r) = _
    rw [invoke_user_step, hEv]
  · intro n env s log e uf s₂ e' hrh hEv
    show run ((n + 1) + 1) env s log (.promiseError e) = _
    rw [promiseError_step, hrh]
    show (match run ((n) + 1) env s log (.invoke (.user uf) [e]) with
      | .ok s₁ log₁ _ => Out.ok s₁ log₁ .unit
      | r => r) = _
    rw [invoke_user_step, hEv]
  · intro n env s log e hrh hnil
    show run ((n + 3) + 1) env s log (.promiseError e) = .thrown s log e
    rw [promiseError_step, hrh, emitError_nil n env s log e hnil]
  · intro n env s log e s₃ log₃ hrh hu hne hlist
    refine ⟨?_, emitList_user_log (listeners s errKey) (n + 1) s log s₃ log₃ .unit hu hlist⟩
    show run ((n + 3) + 1) env s log (.promiseError e) = .ok s₃ log₃ .unit
    rw [promiseError_step, hrh, emitError_with n env s log e s₃ log₃ hne hlist]

theorem promise_failure_routing_order_witness :
    run (1 + 1) env3 sCap [] (.emitList [] [.user 2]) =
      .ok ⟨[], true, none, [7], 0⟩ [(.user 2, [])] .unit
    ∧ run (0 + 2) env0 sRH [] (.promiseError (.exn 1)) =
      .ok sRH [(.user 0, [.exn 1])] .unit
    ∧ run (0 + 2) env3 sRH3 [] (.promiseError (.exn 1)) =
      .thrown sRH3 [(.user 3, [.exn 1])] (.exn 9)
    ∧ run (0 + 4) env0 emptyState [] (.promiseError (.exn 1)) =
      .thrown emptyState [] (.exn 1)
    ∧ run (1 + 4) env0 sErrOnly [] (.promiseError (.exn 1)) =
      .ok sErrOnly [(.user 1, [.exn 1])] .unit :=
  ⟨promise_failure_routing_order.1 1 env3 sCap [] [] (.user 2) 7 sCap [(.user 2, [])]
      (by decide),
   promise_failure_routing_order.2.1 0 env0 sRH [] (.exn 1) 0 sRH .undef (by decide)
      (by decide),
   promise_failure_routing_order.2.2.1 0 env3 sRH3 [] (.exn 1) 3 sRH3 (.exn 9) (by decide)
      (by decide),
   promise_failure_routing_order.2.2.2.1 0 env0 emptyState [] (.exn 1) (by decide)
      (by decide),
   (promise_failure_routing_order.2.2.2.2 1 env0 sErrOnly [] (.exn 1) sErrOnly
      [(.user 1, [.exn 1])] (by decide) (by decide) (by decide) (by decide)).1⟩

/-! ### Lemmas about dispatch with an empty snapshot and about the registry -/

/-- `#emitEvent` with no listeners for the key leaves the state untouched and
reports `false`. -/
theorem emitEvent_nil (n : Nat) (env : Env) (s : State) (log : Log) (k : EventKey)
    (args : List Value) (hnil : listeners s k = []) :
    run (n + 2) env s log (.emitEvent k args) = .ok s log (.bool false) := by
  show run ((n + 1) + 1) env s log (.emitEvent k args) = .ok s log (.bool false)
  rw [emitEvent_step, hnil, emitList_nil]
  rfl

/-- `emit` with no listeners for the key leaves the state untouched and
returns `false`. -/
theorem emit_nil (n : Nat) (env : Env) (s : State) (log : Log) (k : EventKey)
    (args : List Value) (hnil : listeners s k = []) :
    run (n + 3) env s log (.emit k args) = .ok s log (.bool false) := by
  show run ((n + 2) + 1) env s log (.emit k args) = .ok s log (.bool false)
  rw [emit_step, emitEvent_nil n env s log k args hnil]

theorem lookupKey_set_self (reg : List (EventKey × List Fn)) (k : EventKey) (nl : List Fn) :
    lookupKey (setKey reg k nl) k = (lookupKey reg k).map (fun _ => nl) := by
  induction reg with
  | nil => rfl
  | cons p rest ih =>
    obtain ⟨k', l⟩ := p
    by_cases hk : k' = k <;> simp [lookupKey, setKey, hk, ih]

theorem lookupKey_append_right (reg tail : List (EventKey × List Fn)) (k : EventKey)
    (h : lookupKey reg k = none) :
    lookupKey (reg ++ tail) k = lookupKey tail k := by
  induction reg with
  | nil => rfl
  | cons p rest ih =>
    obtain ⟨k', l⟩ := p
    by_cases hk : k' = k
    · simp [lookupKey, hk] at h
    · simp only [List.cons_append, lookupKey, hk, if_false] at h ⊢
      exact ih h

theorem getL_push (s : State) (k : EventKey) (f : Fn) :
    getL (pushListener s k f) k = some (listeners s k ++ [f]) := by
  unfold pushListener
  cases h : lookupKey s.registry k with
  | some l =>
    show lookupKey (setKey s.registry k (l ++ [f])) k = _
    rw [lookupKey_set_self, h]
    simp [listeners, getL, h]
  | none =>
    show lookupKey (s.registry ++ [(k, [f])]) k = _
    rw [lookupKey_append_right _ _ _ h]
    simp [lookupKey, listeners, getL, h]

theorem listeners_push (s : State) (k : EventKey) (f : Fn) :
    listeners (pushListener s k f) k = listeners s k ++ [f] := by
  show (getL (pushListener s k f) k).getD [] = listeners s k ++ [f]
  rw [getL_push]
  rfl

theorem jsIndexOf_none {l : List Fn} {f : Fn} (h : f ∉ l) : jsIndexOf l f = none := by
  induction l with
  | nil => rfl
  | cons a rest ih =>
    have ha : ¬ a = f := fun hh => h (by rw [← hh]; exact List.mem_cons_self a rest)
    simp [jsIndexOf, ha, ih (fun hm => h (List.mem_cons_of_mem a hm))]

theorem cleanupKey_eq_self {s : State} {k : EventKey} {l : List Fn}
    (h : lookupKey s.registry k = some l) (hl : l ≠ []) : cleanupKey s k = s := by
  unfold cleanupKey
  rw [h]
  cases l with
  | nil => exact absurd rfl hl
  | cons a rest => rfl

/-- A once-wrapper is a different function value from the callback it wraps. -/
theorem once_ne (i : Nat) (k : EventKey) (f : Fn) : Fn.once i k f ≠ f := by
  intro h
  have hs := congrArg sizeOf h
  simp at hs

/-! ### C5 -/

/-- C5 counterexample: the stored wrapper does not return the original
callback's result.  Here the original callback `user 0` returns `Value.nat 7`,
yet invoking the stored wrapper entry returns `undefined` (the wrapper's body,
lines 65–68, has no `return`). -/
theorem once_wrapper_discards_result_cex :
    run 9 env7 sOnce [] (.invoke (.once 0 kx (.user 0)) [.nat 1]) =
      .ok sDone logOnce (.val .undef)
    ∧ env7 0 [.nat 1] sDone = (sDone, .ret (.nat 7))
    ∧ Value.undef ≠ Value.nat 7 := by decide

/-- C5 (amended): invoking the stored wrapper entry first removes it from the
registry (`this.off(eventName, onceListener)` runs before the callback) and
then invokes the original callback with the same arguments, discarding the
callback's result — the wrapper returns `undefined`.  Consequently, after
`once("x", f)`, `emit("x", 1)` then `emit("x", 2)` invokes `f` exactly once,
with argument `1` (the trace filtered to `f` is `[(f, [1])]`). -/
theorem once_wrapper_removes_then_invokes :
    (∀ (n : Nat) (env : Env) (s : State) (log : Log) (i : Nat) (k : EventKey) (f : Fn)
        (args : List Value) (s₁ : State) (log₁ : Log) (r₁ : RVal) (s₂ : State) (log₂ : Log)
        (v : Value),
      run n env s (log ++ [(.once i k f, args)]) (.off k (.once i k f)) = .ok s₁ log₁ r₁ →
      run n env s₁ log₁ (.invoke f args) = .ok s₂ log₂ (.val v) →
      run (n + 1) env s log (.invoke (.once i k f) args) = .ok s₂ log₂ (.val .undef))
    ∧ run 12 env0 emptyState [] (.onceAdd kx (.user 0)) = .ok sOnce [] .unit
    ∧ run 12 env0 sOnce [] (.emit kx [.nat 1]) = .ok sDone logOnce (.bool true)
    ∧ run 12 env0 sDone logOnce (.emit kx [.nat 2]) = .ok sDone logOnce (.bool false)
    ∧ logOnce.filter (fun en => en.1 == Fn.user 0) = [(.user 0, [.nat 1])] := by
  refine ⟨?_, by decide, by decide, by decide, by decide⟩
  intro n env s log i k f args s₁ log₁ r₁ s₂ log₂ v hoff hinv
  simp only [invoke_once_step, hoff, hinv]

theorem once_wrapper_removes_then_invokes_witness :
    run (8 + 1) env0 sOnce [] (.invoke (.once 0 kx (.user 0)) [.nat 1]) =
      .ok sDone logOnce (.val .undef) :=
  once_wrapper_removes_then_invokes.1 8 env0 sOnce [] 0 kx (.user 0) [.nat 1] sDone
    [(.once 0 kx (.user 0), [.nat 1])] .unit sDone logOnce .undef (by decide) (by decide)

/-! ### C6 -/

/-- C6 counterexample: after `once("x", f)` the stored entry retains no usable
back-reference: `listeners("x")` returns the wrapper (not `f` itself), and
`off("x", f)` with the original callback's identity does not remove the once
entry (the registry is unchanged and no `removeListener` event fires). -/
theorem once_no_backref_cex :
    run 9 env0 emptyState [] (.onceAdd kx (.user 0)) = .ok sOnce [] .unit
    ∧ listeners sOnce kx = [.once 0 kx (.user 0)]
    ∧ Fn.once 0 kx (.user 0) ≠ Fn.user 0
    ∧ run 9 env0 sOnce [] (.off kx (.user 0)) = .ok sOnce [] .unit
    ∧ listenerCount sOnce kx = 1 := by decide

/-- C6 (amended): `once(k, f)` stores a plain wrapper closure with no
back-reference to `f`: registration appends the wrapper (a function value
distinct from `f`) to `k`'s sequence, `listeners(k)` reports the wrapper
itself, and `off(k, f)` with the original callback is a no-op (nothing
removed, no `removeListener` emitted); only the wrapper's own identity can
remove the entry. -/
theorem once_wrapper_stored_unwrapped (n : Nat) (env : Env) (s : State) (log : Log)
    (k : EventKey) (f : Fn)
    (hnl : listeners s newListenerKey = []) :
    run (n + 5) env s log (.onceAdd k f) =
      .ok (pushListener { s with nextId := s.nextId + 1 } k (.once s.nextId k f)) log .unit
    ∧ listeners (pushListener { s with nextId := s.nextId + 1 } k (.once s.nextId k f)) k
        = listeners s k ++ [.once s.nextId k f]
    ∧ Fn.once s.nextId k f ≠ f
    ∧ (f ∉ listeners s k →
      ∀ (m : Nat) (log' : Log),
      run (m + 1) env (pushListener { s with nextId := s.nextId + 1 } k (.once s.nextId k f))
          log' (.off k f) =
        .ok (pushListener { s with nextId := s.nextId + 1 } k (.once s.nextId k f)) log'
          .unit) := by
  refine ⟨?_, listeners_push _ k _, once_ne s.nextId k f, ?_⟩
  · show run ((n + 4) + 1) env s log (.onceAdd k f) = _
    rw [onceAdd_step]
    show run ((n + 3) + 1) env { s with nextId := s.nextId + 1 } log
      (.onAdd k (.once s.nextId k f)) = _
    rw [onAdd_step]
    have hnl' : listeners { s with nextId := s.nextId + 1 } newListenerKey = [] := hnl
    rw [emit_nil n env _ log newListenerKey _ hnl']
  · intro hmem m log'
    have hget : getL (pushListener { s with nextId := s.nextId + 1 } k (.once s.nextId k f)) k
        = some (listeners s k ++ [.once s.nextId k f]) := getL_push _ k _
    have hnm : f ∉ listeners s k ++ [Fn.once s.nextId k f] := by
      intro hmem'
      rcases List.mem_append.mp hmem' with h1 | h2
      · exact hmem h1
      · exact once_ne s.nextId k f (List.mem_singleton.mp h2).symm
    simp only [off_step, hget, jsIndexOf_none hnm, cleanupKey_eq_self hget (by simp)]

theorem once_wrapper_stored_unwrapped_witness :
    run (0 + 5) env0 s_two [] (.onceAdd kx (.user 5)) =
      .ok ⟨[(kx, [.user 0, .user 1, .once 0 kx (.user 5)])], false, none, [], 1⟩ [] .unit
    ∧ listeners ⟨[(kx, [.user 0, .user 1, .once 0 kx (.user 5)])], false, none, [], 1⟩ kx
        = listeners s_two kx ++ [.once 0 kx (.user 5)]
    ∧ Fn.once 0 kx (.user 5) ≠ .user 5
    ∧ run (3 + 1) env0 ⟨[(kx, [.user 0, .user 1, .once 0 kx (.user 5)])], false, none, [], 1⟩
        [] (.off kx (.user 5)) =
      .ok ⟨[(kx, [.user 0, .user 1, .once 0 kx (.user 5)])], false, none, [], 1⟩ [] .unit := by
  have h := once_wrapper_stored_unwrapped 0 env0 s_two [] kx (.user 5) (by decide)
  exact ⟨h.1, h.2.1, h.2.2.1, h.2.2.2 (by decide) 3 []⟩

/-! ### C8 -/

/-- C8 counterexample: registration performs no validation.  `on("x", v)` with
a non-invocable callback value succeeds (returns normally, no validation
error) and mutates the registry, contradicting "fails immediately … and
leaves the registry unchanged". -/
theorem registration_accepts_noninvocable_cex :
    run 5 env0 emptyState [] (.onAdd kx (.nonfn 0)) =
      .ok ⟨[(kx, [.nonfn 0])], false, none, [], 0⟩ [] .unit
    ∧ listeners ⟨[(kx, [.nonfn 0])], false, none, [], 0⟩ kx = [.nonfn 0] := by decide

/-- C8 (amended): registration operations validate nothing — `on` emits
`newListener` and then unconditionally appends whatever callback value it was
given (lines 174–178), for any event key and any `Fn`, including
non-invocable values; a stored non-invocable value fails only later, at
dispatch time, when invoking it raises a TypeError (which then follows
`emit`'s error routing). -/
theorem registration_no_validation :
    (∀ (n : Nat) (env : Env) (s : State) (log : Log) (k : EventKey) (f : Fn)
        (s₁ : State) (log₁ : Log) (r₁ : RVal),
      run n env s log (.emit newListenerKey [.keyv k, .fnv f]) = .ok s₁ log₁ r₁ →
      run (n + 1) env s log (.onAdd k f) = .ok (pushListener s₁ k f) log₁ .unit)
    ∧ (∀ (n : Nat) (env : Env) (s : State) (log : Log) (j : Nat) (args : List Value),
      run (n + 1) env s log (.invoke (.nonfn j) args) = .thrown s log .typeError) := by
  constructor
  · intro n env s log k f s₁ log₁ r₁ h
    simp only [onAdd_step, h]
  · intro n env s log j args
    rfl

theorem registration_no_validation_witness :
    run (3 + 1) env0 s_err [] (.onAdd kx (.nonfn 4)) =
      .ok (pushListener s_err kx (.nonfn 4)) [] .unit
    ∧ run (0 + 1) env0 emptyState [] (.invoke (.nonfn 4) [.nat 1]) =
      .thrown emptyState [] .typeError :=
  ⟨registration_no_validation.1 3 env0 s_err [] kx (.nonfn 4) s_err [] (.bool false)
      (by decide),
   registration_no_validation.2 0 env0 emptyState [] 4 [.nat 1]⟩

/-! ### C7 (spec-modelled max-listener warning) -/

/-- A first crossing of the threshold emits exactly one warning and marks the
key as warned. -/
theorem warnInsert_cross {mx : Nat} {s : WarnState} {k : EventKey}
    (hm : s.maxL = some mx) (hmx : mx ≠ 0)
    (hw : s.warned k = false) (hc : s.cnt k + 1 > mx) :
    (warnInsert s k).warnings k = s.warnings k + 1
      ∧ (warnInsert s k).warned k = true := by
  refine ⟨?_, ?_⟩ <;> simp [warnInsert, hm, hmx, hc, hw]

/-- Once a key is marked as warned, no insertion emits another warning for it. -/
theorem warnInsert_warned_noop {s : WarnState} {k : EventKey} (hW : s.warned k = true)
    (k' : EventKey) :
    (warnInsert s k').warnings k = s.warnings k ∧ (warnInsert s k').warned k = true := by
  by_cases hk : k = k'
  · subst hk
    have hfire : (match s.maxL with
        | some mx => decide (mx ≠ 0) && decide (s.cnt k + 1 > mx) && !(s.warned k)
        | none => false) = false := by
      rw [hW]; cases s.maxL <;> simp
    constructor
    · simp [warnInsert, hW]
      cases s.maxL <;> rfl
    · simp [warnInsert, hW]
  · refine ⟨?_, ?_⟩ <;> simp [warnInsert, hk, hW]

/-- `warnInsert` transports the warning invariant. -/
theorem warnInsert_invariant (mx : Nat) (s : WarnState) (k' k : EventKey)
    (hm : s.maxL = some mx) (hmx : mx ≠ 0)
    (hw : s.warned k = true ↔ s.cnt k > mx)
    (hcw : s.warnings k = if s.warned k then 1 else 0) :
    (warnInsert s k').maxL = some mx
    ∧ (warnInsert s k').cnt k = s.cnt k + (if k' = k then 1 else 0)
    ∧ ((warnInsert s k').warned k = true ↔ (warnInsert s k').cnt k > mx)
    ∧ (warnInsert s k').warnings k = (if (warnInsert s k').warned k then 1 else 0) := by
  refine ⟨hm, ?_, ?_, ?_⟩
  · by_cases hk : k = k'
    · subst hk
      simp [warnInsert]
    · have hk2 : ¬ k' = k := fun h => hk h.symm
      simp [warnInsert, hk, hk2]
  · by_cases hk : k = k'
    · subst hk
      by_cases hwk : s.warned k = true
      · have hgt : s.cnt k > mx := hw.mp hwk
        simp [warnInsert, hm, hwk]
        omega
      · have hwk' : s.warned k = false := by
          cases h : s.warned k
          · rfl
          · exact absurd h hwk
        by_cases hc : s.cnt k + 1 > mx
        · simp [warnInsert, hm, hwk', hc, hmx]
        · simp [warnInsert, hm, hwk', hc]
    · simp [warnInsert, hk, hw]
  · by_cases hk : k = k'
    · subst hk
      by_cases hwk : s.warned k = true
      · simp [warnInsert, hm, hwk, hcw]
      · have hwk' : s.warned k = false := by
          cases h : s.warned k
          · rfl
          · exact absurd h hwk
        by_cases hc : s.cnt k + 1 > mx
        · simp [warnInsert, hm, hwk', hc, hmx, hcw]
        · simp [warnInsert, hm, hwk', hc, hcw]
    · simp [warnInsert, hk, hcw]

/-- C7: in the spec-modelled warning machinery, for any starting state
satisfying the warning invariant (warned exactly when over threshold, and one
logged warning exactly for warned keys), a finite nonzero threshold `mx`, and
any sequence of insertions: the warning log for `k` ends at exactly `1` if
the final count for `k` exceeds the threshold and `0` otherwise, so the first
crossing insertion warns exactly once and later insertions beyond the
threshold never warn again; moreover a first-crossing step emits exactly one
warning and marks the key, and an already-warned key never warns again. -/
theorem max_listener_warning_fires_once (mx : Nat) (k : EventKey) (ks : List EventKey)
    (s : WarnState) (hm : s.maxL = some mx) (hmx : mx ≠ 0)
    (hw : s.warned k = true ↔ s.cnt k > mx)
    (hcw : s.warnings k = if s.warned k then 1 else 0) :
    ((warnInsertMany s ks).warnings k = if s.cnt k + ks.count k > mx then 1 else 0)
    ∧ (warnInsertMany s ks).cnt k = s.cnt k + ks.count k
    ∧ (s.warned k = false → s.cnt k + 1 > mx →
        (warnInsert s k).warnings k = s.warnings k + 1 ∧ (warnInsert s k).warned k = true)
    ∧ (s.warned k = true → ∀ k', (warnInsert s k').warnings k = s.warnings k) := by
  have main : ∀ (ks : List EventKey) (s : WarnState), s.maxL = some mx →
      (s.warned k = true ↔ s.cnt k > mx) →
      s.warnings k = (if s.warned k then 1 else 0) →
      ((warnInsertMany s ks).warnings k = if s.cnt k + ks.count k > mx then 1 else 0)
      ∧ (warnInsertMany s ks).cnt k = s.cnt k + ks.count k := by
    intro ks
    induction ks with
    | nil =>
      intro s hm hw hcw
      refine ⟨?_, by simp [warnInsertMany]⟩
      simp only [warnInsertMany, List.foldl_nil, List.count_nil, Nat.add_zero]
      rw [hcw]
      by_cases h : s.cnt k > mx
      · simp [h, hw.mpr h]
      · have hh : ¬ s.warned k = true := fun hh => h (hw.mp hh)
        simp [h, hh]
    | cons a ks ih =>
      intro s hm hw hcw
      obtain ⟨hm', hcnt, hw', hcw'⟩ := warnInsert_invariant mx s a k hm hmx hw hcw
      have hmain := ih (warnInsert s a) hm' hw' hcw'
      have hcount : s.cnt k + (if a = k then 1 else 0) + List.count k ks
          = s.cnt k + List.count k (a :: ks) := by
        by_cases hk : a = k <;> (simp [List.count_cons, hk]; try omega)
      constructor
      · show (warnInsertMany (warnInsert s a) ks).warnings k = _
        rw [hmain.1, hcnt, hcount]
      · show (warnInsertMany (warnInsert s a) ks).cnt k = _
        rw [hmain.2, hcnt, hcount]
  exact ⟨(main ks s hm hw hcw).1, (main ks s hm hw hcw).2,
    fun h1 h2 => warnInsert_cross hm hmx h1 h2,
    fun h1 k' => (warnInsert_warned_noop h1 k').1⟩

theorem max_listener_warning_fires_once_witness :
    (warnInsertMany s0warn [kx, kx, kx, kx]).warnings kx = 1
    ∧ (warnInsertMany s0warn [kx, kx, kx, kx]).cnt kx = 4 := by
  have h := max_listener_warning_fires_once 2 kx [kx, kx, kx, kx] s0warn rfl
    (by decide) (by decide) (by decide)
  exact ⟨by rw [h.1]; decide, by rw [h.2.1]; decide⟩

/-! ### C9 -/

theorem mem_insSorted (a x : EventKey) (l : List EventKey) :
    x ∈ insSorted a l ↔ x = a ∨ x ∈ l := by
  induction l with
  | nil => simp [insSorted]
  | cons b r ih =>
    by_cases h : keyIdxVal a ≤ keyIdxVal b
    · simp [insSorted, h]
    · simp [insSorted, h, ih]
      tauto

theorem mem_sortIdx (x : EventKey) (l : List EventKey) : x ∈ sortIdx l ↔ x ∈ l := by
  induction l with
  | nil => simp [sortIdx]
  | cons a r ih => simp [sortIdx, mem_insSorted, ih]

/-- Membership in `eventNames()`: exactly the string keys present in the
property map (`Object.keys` omits symbol keys). -/
theorem mem_eventNames (s : State) (x : EventKey) :
    x ∈ eventNames s ↔ x ∈ s.registry.map Prod.fst ∧ isStrKey x = true := by
  unfold eventNames
  simp only [List.mem_append, mem_sortIdx, List.mem_filter]
  constructor
  · rintro (⟨⟨hm, hs⟩, _⟩ | ⟨⟨hm, hs⟩, _⟩) <;> exact ⟨hm, hs⟩
  · rintro ⟨hm, hs⟩
    by_cases hidx : isArrayIndexKey x = true
    · exact Or.inl ⟨⟨hm, hs⟩, hidx⟩
    · exact Or.inr ⟨⟨hm, hs⟩, by simp [hidx]⟩

theorem lookupKey_none_iff (reg : List (EventKey × List Fn)) (k : EventKey) :
    lookupKey reg k = none ↔ k ∉ reg.map Prod.fst := by
  induction reg with
  | nil => simp [lookupKey]
  | cons p rest ih =>
    obtain ⟨k', l⟩ := p
    by_cases h : k' = k
    · subst h; simp [lookupKey]
    · have hne : ¬ k = k' := fun hh => h hh.symm
      simp [lookupKey, h, hne, ih]

theorem lookupKey_mem {reg : List (EventKey × List Fn)} {k : EventKey} {l : List Fn}
    (h : lookupKey reg k = some l) : (k, l) ∈ reg := by
  induction reg with
  | nil => simp [lookupKey] at h
  | cons p rest ih =>
    obtain ⟨k', l'⟩ := p
    by_cases hk : k' = k
    · subst hk
      simp [lookupKey] at h
      rw [← h]
      exact List.mem_cons_self _ _
    · simp [lookupKey, hk] at h
      exact List.mem_cons_of_mem _ (ih h)

theorem setKey_map_fst (reg : List (EventKey × List Fn)) (k : EventKey) (nl : List Fn) :
    (setKey reg k nl).map Prod.fst = reg.map Prod.fst := by
  induction reg with
  | nil => rfl
  | cons p rest ih =>
    obtain ⟨k', l⟩ := p
    by_cases h : k' = k <;> simp [setKey, h, ih]

theorem mem_setKey {reg : List (EventKey × List Fn)} {k : EventKey} {nl : List Fn}
    {p : EventKey × List Fn} :
    p ∈ setKey reg k nl → p ∈ reg ∨ p = (k, nl) := by
  induction reg with
  | nil => intro h; simp [setKey] at h
  | cons q rest ih =>
    obtain ⟨k', l⟩ := q
    by_cases h : k' = k
    · subst h
      intro hp
      have hp' : p ∈ (k', nl) :: rest := by simpa [setKey] using hp
      rcases List.mem_cons.mp hp' with rfl | hp2
      · exact Or.inr rfl
      · exact Or.inl (List.mem_cons_of_mem _ hp2)
    · intro hp
      simp only [setKey, if_neg h, List.mem_cons] at hp
      rcases hp with rfl | hp
      · exact Or.inl (List.mem_cons_self _ _)
      · rcases ih hp with h1 | h1
        · exact Or.inl (List.mem_cons_of_mem _ h1)
        · exact Or.inr h1

theorem mem_removeKey {reg : List (EventKey × List Fn)} {k : EventKey}
    {p : EventKey × List Fn} :
    p ∈ removeKey reg k → p ∈ reg := by
  induction reg with
  | nil => intro h; simp [removeKey] at h
  | cons q rest ih =>
    obtain ⟨k', l⟩ := q
    by_cases h : k' = k
    · intro hp
      simp only [removeKey, if_pos h] at hp
      exact List.mem_cons_of_mem _ hp
    · intro hp
      simp only [removeKey, if_neg h, List.mem_cons] at hp
      rcases hp with rfl | hp
      · exact List.mem_cons_self _ _
      · exact List.mem_cons_of_mem _ (ih hp)

theorem removeKey_fst_ne {reg : List (EventKey × List Fn)} {k : EventKey}
    (hnd : (reg.map Prod.fst).Nodup) :
    ∀ p ∈ removeKey reg k, p.1 ≠ k := by
  induction reg with
  | nil => intro p hp; simp [removeKey] at hp
  | cons q rest ih =>
    obtain ⟨k', l⟩ := q
    simp only [List.map_cons, List.nodup_cons] at hnd
    by_cases h : k' = k
    · subst h
      intro p hp hpk
      simp only [removeKey, if_pos rfl] at hp
      exact hnd.1 (hpk ▸ List.mem_map_of_mem Prod.fst hp)
    · intro p hp
      simp only [removeKey, if_neg h, List.mem_cons] at hp
      rcases hp with rfl | hp
      · exact h
      · exact ih hnd.2 p hp

theorem removeKey_map_fst_sublist (reg : List (EventKey × List Fn)) (k : EventKey) :
    ((removeKey reg k).map Prod.fst).Sublist (reg.map Prod.fst) := by
  induction reg with
  | nil => simp [removeKey]
  | cons q rest ih =>
    obtain ⟨k', l⟩ := q
    by_cases h : k' = k
    · simp only [removeKey, if_pos h, List.map_cons]
      exact (List.sublist_cons_self _ _).trans (List.Sublist.refl _) |>.trans
        (List.Sublist.refl _)
    · simp only [removeKey, if_neg h, List.map_cons]
      exact ih.cons₂ _

/-- C9 (amended): `eventNames()` is `Object.keys(#listeners)`, so: for text
string keys, in any state satisfying the registry invariant (unique keys,
no empty sequences — which the registry primitives preserve), a key appears in
`eventNames()` iff at least one listener is registered for it; symbol keys,
however, never appear in `eventNames()` even while they have listeners,
because `Object.keys` omits symbol-keyed properties. -/
theorem eventNames_iff_nonempty_for_strings :
    (∀ (s : State) (t : String), RegInv s →
      (EventKey.str t ∈ eventNames s ↔ listenerCount s (.str t) ≠ 0))
    ∧ (∀ (s : State) (i : Nat), EventKey.sym i ∉ eventNames s)
    ∧ (∀ (s : State) (k : EventKey) (f : Fn), RegInv s → RegInv (pushListener s k f))
    ∧ (∀ (s : State) (k : EventKey) (f : Fn), RegInv s → RegInv (unshiftListener s k f))
    ∧ (∀ (s : State) (k : EventKey) (lst : List Fn) (i : Nat), RegInv s →
        lookupKey s.registry k = some lst →
        RegInv (cleanupKey { s with registry := setKey s.registry k (lst.eraseIdx i) } k)) := by
  refine ⟨?_, ?_, ?_, ?_, ?_⟩
  · intro s t hInv
    rw [mem_eventNames]
    constructor
    · rintro ⟨hm, _⟩
      cases hl : lookupKey s.registry (.str t) with
      | none => exact absurd hm ((lookupKey_none_iff _ _).mp hl)
      | some l =>
        have hne := hInv.1 _ (lookupKey_mem hl)
        unfold listenerCount getL
        rw [hl]
        intro h
        exact hne (List.eq_nil_of_length_eq_zero h)
    · intro hc
      refine ⟨?_, rfl⟩
      by_contra hnm
      have h0 := (lookupKey_none_iff s.registry (.str t)).mpr hnm
      unfold listenerCount getL at hc
      rw [h0] at hc
      exact hc rfl
  · intro s i hmem
    rw [mem_eventNames] at hmem
    simpa [isStrKey] using hmem.2
  · intro s k f hInv
    unfold pushListener
    cases hl : lookupKey s.registry k with
    | some l =>
      constructor
      · intro p hp
        rcases mem_setKey hp with h1 | rfl
        · exact hInv.1 p h1
        · simp
      · show ((setKey s.registry k (l ++ [f])).map Prod.fst).Nodup
        rw [setKey_map_fst]
        exact hInv.2
    | none =>
      constructor
      · intro p hp
        rcases List.mem_append.mp hp with h1 | h2
        · exact hInv.1 p h1
        · rw [List.mem_singleton.mp h2]
          simp
      · show ((s.registry ++ [(k, [f])]).map Prod.fst).Nodup
        rw [List.map_append]
        simp only [List.map_cons, List.map_nil]
        rw [List.nodup_append]
        refine ⟨hInv.2, List.nodup_singleton _, ?_⟩
        intro a ha hb
        rw [List.mem_singleton.mp hb] at ha
        exact (lookupKey_none_iff _ _).mp hl ha
  · intro s k f hInv
    unfold unshiftListener
    cases hl : lookupKey s.registry k with
    | some l =>
      constructor
      · intro p hp
        rcases mem_setKey hp with h1 | rfl
        · exact hInv.1 p h1
        · simp
      · show ((setKey s.registry k (f :: l)).map Prod.fst).Nodup
        rw [setKey_map_fst]
        exact hInv.2
    | none =>
      constructor
      · intro p hp
        rcases List.mem_append.mp hp with h1 | h2
        · exact hInv.1 p h1
        · rw [List.mem_singleton.mp h2]
          simp
      · show ((s.registry ++ [(k, [f])]).map Prod.fst).Nodup
        rw [List.map_append]
        simp only [List.map_cons, List.map_nil]
        rw [List.nodup_append]
        refine ⟨hInv.2, List.nodup_singleton _, ?_⟩
        intro a ha hb
        rw [List.mem_singleton.mp hb] at ha
        exact (lookupKey_none_iff _ _).mp hl ha
  · intro s k lst i hInv hl
    unfold cleanupKey
    cases hl2 : lookupKey (setKey s.registry k (lst.eraseIdx i)) k with
    | some l2 =>
      cases l2 with
      | nil =>
        constructor
        · intro p hp
          have hp' := mem_removeKey hp
          rcases mem_setKey hp' with h1 | heq
          · exact hInv.1 p h1
          · have hne := removeKey_fst_ne (by rw [setKey_map_fst]; exact hInv.2) p hp
            rw [heq] at hne
            exact absurd rfl hne
        · have hsub := removeKey_map_fst_sublist (setKey s.registry k (lst.eraseIdx i)) k
          have hnd : ((setKey s.registry k (lst.eraseIdx i)).map Prod.fst).Nodup := by
            rw [setKey_map_fst]; exact hInv.2
          exact hnd.sublist hsub
      | cons a rest =>
        constructor
        · intro p hp
          rcases mem_setKey hp with h1 | heq
          · exact hInv.1 p h1
          · rw [lookupKey_set_self, hl] at hl2
            simp only [Option.map_some'] at hl2
            have h2 := Option.some.inj hl2
            rw [heq]
            show lst.eraseIdx i ≠ []
            rw [h2]
            simp
        · show ((setKey s.registry k (lst.eraseIdx i)).map Prod.fst).Nodup
          rw [setKey_map_fst]
          exact hInv.2
    | none =>
      rw [lookupKey_set_self, hl] at hl2
      simp at hl2

/-- C9 counterexample: a symbol event key with one registered listener is
absent from `eventNames()` (which is `Object.keys`, so symbol-keyed
properties are omitted). -/
theorem symbol_key_absent_from_eventNames_cex :
    run 5 env0 emptyState [] (.onAdd (.sym 0) (.user 0)) =
      .ok ⟨[(.sym 0, [.user 0])], false, none, [], 0⟩ [] .unit
    ∧ listenerCount ⟨[(.sym 0, [.user 0])], false, none, [], 0⟩ (.sym 0) = 1
    ∧ eventNames ⟨[(.sym 0, [.user 0])], false, none, [], 0⟩ = [] := by decide

theorem eventNames_iff_nonempty_for_strings_witness :
    ((EventKey.str "y") ∈ eventNames s_err ↔ listenerCount s_err (.str "y") ≠ 0)
    ∧ RegInv (pushListener s_err kx (.user 5)) :=
  ⟨eventNames_iff_nonempty_for_strings.1 s_err "y" ⟨by decide, by decide⟩,
   eventNames_iff_nonempty_for_strings.2.2.1 s_err kx (.user 5) ⟨by decide, by decide⟩⟩

/-! ### C10 -/

/-- One-step unfolding of `run` on `.removeAll`: the key list is fixed up
front from `eventNames()` (source line 275). -/
theorem removeAll_step (n : Nat) (env : Env) (s : State) (log : Log)
    (ko : Option EventKey) :
    run (n + 1) env s log (.removeAll ko) =
      run n env s log (.drainKeys (match ko with | some k => [k] | none => eventNames s)) :=
  rfl

theorem drainKeys_nil (n : Nat) (env : Env) (s : State) (log : Log) :
    run (n + 1) env s log (.drainKeys []) = .ok s log .unit := rfl

theorem drainKeys_cons_step (n : Nat) (env : Env) (s : State) (log : Log)
    (k : EventKey) (rest : List EventKey) :
    run (n + 1) env s log (.drainKeys (k :: rest)) =
      match run n env s log (.drainFns k (listeners s k)) with
      | .ok s₁ log₁ _ => run n env s₁ log₁ (.drainKeys rest)
      | r => r := rfl

theorem drainFns_nil (n : Nat) (env : Env) (s : State) (log : Log) (k : EventKey) :
    run (n + 1) env s log (.drainFns k []) = .ok s log .unit := rfl

theorem drainFns_cons_step (n : Nat) (env : Env) (s : State) (log : Log)
    (k : EventKey) (f : Fn) (rest : List Fn) :
    run (n + 1) env s log (.drainFns k (f :: rest)) =
      match run n env s log (.off k f) with
      | .ok s₁ log₁ _ => run n env s₁ log₁ (.drainFns k rest)
      | r => r := rfl

/-- Dispatch with a single pure user listener: the listener is invoked once
with the arguments, the state is unchanged, and `#emitEvent` reports `true`. -/
theorem emitEvent_single_user (m : Nat) (env : Env) (s : State) (log : Log)
    (k : EventKey) (args : List Value) (u : Nat)
    (hl : listeners s k = [.user u]) (henv : env u args s = (s, .ret .undef)) :
    run (m + 3) env s log (.emitEvent k args) = .ok s (log ++ [(.user u, args)]) (.bool true) := by
  have hinv : run (m + 1) env s log (.invoke (.user u) args)
      = .ok s (log ++ [(.user u, args)]) (.val .undef) := by
    rw [invoke_user_step, henv]
  have hlist : run (m + 2) env s log (.emitList args [.user u])
      = .ok s (log ++ [(.user u, args)]) .unit := by
    show run ((m + 1) + 1) env s log (.emitList args [.user u]) = _
    rw [emitList_cons_step]
    simp only [hinv]
    exact emitList_nil m env s _ args
  show run ((m + 2) + 1) env s log (.emitEvent k args) = _
  rw [emitEvent_step, hl, hlist]
  rfl

/-- `emit` with a single pure user listener. -/
theorem emit_single_user (m : Nat) (env : Env) (s : State) (log : Log)
    (k : EventKey) (args : List Value) (u : Nat)
    (hl : listeners s k = [.user u]) (henv : env u args s = (s, .ret .undef)) :
    run (m + 4) env s log (.emit k args) = .ok s (log ++ [(.user u, args)]) (.bool true) := by
  show run ((m + 3) + 1) env s log (.emit k args) = _
  rw [emit_step, emitEvent_single_user m env s log k args u hl henv]

/-- One `off` step inside the drain of key `"a"`: the first stored entry is
spliced out, then `removeListener` is emitted and observed by the still
registered handler `user 9`. -/
theorem drain_off_step (m : Nat) (env : Env)
    (henv : ∀ (u : Nat) (args : List Value) (st : State), env u args st = (st, .ret .undef))
    (f : Fn) (rest : List Fn) (log : Log) :
    run (m + 5) env (mkA (f :: rest)) log (.off ka f) =
      .ok (mkA rest) (log ++ [(uh, [.keyv ka, .fnv f])]) .unit := by
  have hidx : jsIndexOf (f :: rest) f = some 0 := by simp [jsIndexOf]
  have hget : getL (mkA (f :: rest)) ka = some (f :: rest) := rfl
  have hclean : cleanupKey ⟨[(ka, rest), (removeListenerKey, [uh])], false, none, [], 0⟩ ka
      = mkA rest := by cases rest <;> rfl
  have hemit : run (m + 4) env ⟨[(ka, rest), (removeListenerKey, [uh])], false, none, [], 0⟩
      log (.emit removeListenerKey [.keyv ka, .fnv f]) =
      .ok ⟨[(ka, rest), (removeListenerKey, [uh])], false, none, [], 0⟩
        (log ++ [(uh, [.keyv ka, .fnv f])]) (.bool true) :=
    emit_single_user m env _ log removeListenerKey _ 9 rfl (henv 9 _ _)
  show run ((m + 4) + 1) env (mkA (f :: rest)) log (.off ka f) = _
  rw [off_step]
  simp only [hget, hidx]
  show (match run (m + 4) env ⟨[(ka, rest), (removeListenerKey, [uh])], false, none, [], 0⟩
      log (.emit removeListenerKey [.keyv ka, .fnv f]) with
    | .ok s₂ log₂ _ => Out.ok (cleanupKey s₂ ka) log₂ .unit
    | r => r) = _
  rw [hemit]
  simp only []
  rw [hclean]

/-- Draining key `"a"` front-to-back: each removed listener is announced via a
`removeListener` emission observed by the `removeListener` handler. -/
theorem drain_key_a (env : Env)
    (henv : ∀ (u : Nat) (args : List Value) (st : State), env u args st = (st, .ret .undef)) :
    ∀ (fs : List Fn) (m : Nat) (log : Log),
    run (6 * fs.length + (m + 1)) env (mkA fs) log (.drainFns ka fs) =
      .ok (mkA []) (log ++ fs.map (fun f => (uh, [.keyv ka, .fnv f]))) .unit := by
  intro fs
  induction fs with
  | nil =>
    intro m log
    rw [show 6 * ([] : List Fn).length + (m + 1) = m + 1 by simp]
    rw [drainFns_nil]
    simp
  | cons f fs' ih =>
    intro m log
    rw [show 6 * (f :: fs').length + (m + 1) = (6 * fs'.length + m + 6) + 1 by
      simp [List.length_cons]; ring]
    rw [drainFns_cons_step]
    have hoff := drain_off_step (6 * fs'.length + m + 1) env henv f fs' log
    rw [show (6 * fs'.length + m + 1) + 5 = 6 * fs'.length + m + 6 by omega] at hoff
    simp only [hoff]
    have hih := ih (m + 5) (log ++ [(uh, [.keyv ka, .fnv f])])
    rw [show 6 * fs'.length + ((m + 5) + 1) = 6 * fs'.length + m + 6 by omega] at hih
    rw [hih]
    simp

/-- Draining the `removeListener` key itself, last: its own removal is
announced into an already-empty sequence, so nothing observes it. -/
theorem drain_rl (env : Env) (p : Nat) (lg : Log) :
    run (p + 7) env (mkA []) lg (.drainKeys [removeListenerKey]) = .ok emptyState lg .unit := by
  have hoff : run (p + 5) env (mkA []) lg (.off removeListenerKey uh)
      = .ok emptyState lg .unit := by
    show run ((p + 4) + 1) env (mkA []) lg (.off removeListenerKey uh) = _
    rw [off_step]
    have hget : getL (mkA []) removeListenerKey = some [uh] := rfl
    have hidx : jsIndexOf [uh] uh = some 0 := rfl
    simp only [hget, hidx]
    show (match run (p + 4) env ⟨[(removeListenerKey, [])], false, none, [], 0⟩ lg
        (.emit removeListenerKey [.keyv removeListenerKey, .fnv uh]) with
      | .ok s₂ log₂ _ => Out.ok (cleanupKey s₂ removeListenerKey) log₂ .unit
      | r => r) = _
    rw [show p + 4 = (p + 1) + 3 by omega]
    rw [emit_nil (p + 1) env ⟨[(removeListenerKey, [])], false, none, [], 0⟩ lg
      removeListenerKey [.keyv removeListenerKey, .fnv uh] rfl]
    rfl
  have hdf : run (p + 6) env (mkA []) lg (.drainFns removeListenerKey [uh])
      = .ok emptyState lg .unit := by
    show run ((p + 5) + 1) env (mkA []) lg (.drainFns removeListenerKey [uh]) = _
    rw [drainFns_cons_step]
    simp only [hoff]
    exact drainFns_nil (p + 4) env emptyState lg removeListenerKey
  show run ((p + 6) + 1) env (mkA []) lg (.drainKeys [removeListenerKey]) = _
  rw [drainKeys_cons_step]
  have hsnap : listeners (mkA []) removeListenerKey = [uh] := rfl
  rw [hsnap]
  simp only [hdf]
  exact drainKeys_nil (p + 5) env emptyState lg

/-- C10 counterexample: with the `removeListener` key registered before `"a"`,
`removeAllListeners()` drains the keys in `eventNames()` (insertion) order, so
the `removeListener` key is drained FIRST, and its handler `user 9` observes
none of the other removals: the run ends with an empty invocation log even
though `"a"`'s listener was removed while the handler was registered. -/
theorem removeAll_drains_in_insertion_order_cex :
    run 30 env0 sRL [] (.removeAll none) = .ok emptyState [] .unit
    ∧ eventNames sRL = [removeListenerKey, ka]
    ∧ listeners sRL removeListenerKey = [.user 9]
    ∧ listenerCount sRL ka = 1 := by decide

/-- C10 (amended): `removeAllListeners()` fixes the key list to `eventNames()`
(insertion order) up front and drains each key front-to-back, emitting one
`removeListener` event after each individual removal; handlers on the
`removeListener` key observe exactly the removals of keys drained while they
are still registered — in particular, when the `removeListener` key happens
to come last in `eventNames()` (as here, where `"a"` was registered first),
its handler observes every other removal, one event per removed listener, and
the `removeListener` key itself is drained afterwards unobserved.  The key is
not drained last in general (see the counterexample). -/
theorem removeAll_drain_order (env : Env)
    (henv : ∀ (u : Nat) (args : List Value) (st : State), env u args st = (st, .ret .undef))
    (fs : List Fn) (hfs : fs ≠ []) (m : Nat) :
    run (6 * fs.length + m + 9) env (mkA fs) [] (.removeAll none) =
      .ok emptyState (fs.map (fun f => (uh, [.keyv ka, .fnv f]))) .unit
    ∧ eventNames (mkA fs) = [ka, removeListenerKey] := by
  obtain ⟨f, fs', rfl⟩ := List.exists_cons_of_ne_nil hfs
  have hnames : eventNames (mkA (f :: fs')) = [ka, removeListenerKey] := rfl
  refine ⟨?_, hnames⟩
  rw [show 6 * (f :: fs').length + m + 9 = (6 * (f :: fs').length + m + 8) + 1 by omega]
  rw [removeAll_step]
  show run (6 * (f :: fs').length + m + 8) env (mkA (f :: fs')) []
    (.drainKeys (eventNames (mkA (f :: fs')))) = _
  rw [hnames]
  rw [show 6 * (f :: fs').length + m + 8 = (6 * (f :: fs').length + m + 7) + 1 by omega]
  rw [drainKeys_cons_step]
  have hsnap : listeners (mkA (f :: fs')) ka = f :: fs' := rfl
  rw [hsnap]
  have hda := drain_key_a env henv (f :: fs') (m + 6) []
  rw [show 6 * (f :: fs').length + ((m + 6) + 1) = 6 * (f :: fs').length + m + 7 by omega]
    at hda
  simp only [hda]
  rw [List.nil_append]
  exact drain_rl env (6 * (f :: fs').length + m) _

theorem removeAll_drain_order_witness :
    run (6 * [Fn.user 0].length + 0 + 9) env0 (mkA [.user 0]) [] (.removeAll none) =
      .ok emptyState [(uh, [.keyv ka, .fnv (.user 0)])] .unit
    ∧ eventNames (mkA [.user 0]) = [ka, removeListenerKey] :=
  removeAll_drain_order env0 (fun _ _ _ => rfl) [.user 0] (by decide) 0

end EmitterSpec
